import Mathlib

/-!
Verification of the RBAC predicate synthesizer and per-user permission cache of
stolostron/search-v2-api.

The synthesizer (`pkg/resolver/rbacHelper.go`) turns a user's permission
snapshot into a goqu boolean expression used as a SQL WHERE clause.  We embed
goqu expressions as a tree `Expr` whose list nodes mirror
`goqu.And`/`goqu.Or`.  goqu's `NewExpressionList` drops nested expression
lists that are empty, and a WHERE clause whose expression list is empty is
elided entirely (no restriction); the smart constructors `gAnd`/`gOr` and the
top-level semantics `matchesRow` mirror this.

The permission cache (`pkg/rbac` user data cache) is embedded as explicit
state passing: `time.Now()` becomes an integer parameter `now`, the
Kubernetes / authorization API calls become oracle fields of `Providers`, and
Go maps become association lists (Go map iteration order is arbitrary; where
the code depends on it, the association-list order stands for one such order).
-/

/-- Embeds `rbac.Resource` (an authorized apigroup/kind pair; `"*"` is the
wildcard, `""` the core API group). -/
structure Resource where
  apigroup : String
  kind : String
deriving DecidableEq, Repr

/-- Order `Resource` lexicographically by (apigroup, kind).  Used only by the
spec-modelled deterministic key ordering (`getKeysR`), not by the synthesizer
itself. -/
instance : LinearOrder Resource :=
  LinearOrder.lift' (fun r => toLex (r.apigroup, r.kind))
    (by intro a b h; cases a; cases b; simpa [toLex, Prod.ext_iff] using h)

/-- Embeds the fields of `v1.UserInfo` the synthesizer reads (logging and the
per-user lookup-table name). -/
structure UserInfo where
  username : String
  uid : String
deriving DecidableEq, Repr

/-- Embeds the goqu expression values built by `rbacHelper.go`.  List nodes
are `goqu.And`/`goqu.Or`; the leaves are the literal SQL fragments the file
produces:
* `apigroupAbsent`: `NOT("data"?'apigroup')`
* `apigroupIs g`: `data->'apigroup' ? g`
* `kindIs k`: `data->'kind_plural' ? k`
* `namespaceAbsent`: `NOT("data"?'namespace')`
* `namespaceIs ns`: `data->'namespace' ? ns`
* `namespaceIn nss`: `data->'namespace' ?| (SELECT resList FROM lookup_<uid>
  WHERE type = <group>)`; the namespace list of the consolidated group is
  inlined, since (modelled from the spec) the per-user lookup table row for a
  group holds exactly the namespaces consolidated under that group.
* `hubMarkerPresent`: `"data"?'_hubClusterResource'` -/
inductive Expr where
  | and : List Expr → Expr
  | or : List Expr → Expr
  | apigroupAbsent : Expr
  | apigroupIs : String → Expr
  | kindIs : String → Expr
  | namespaceAbsent : Expr
  | namespaceIs : String → Expr
  | namespaceIn : List String → Expr
  | hubMarkerPresent : Expr

/-- Embeds goqu `ExpressionList.IsEmpty()`: an expression list with no
expressions.  Leaves are never empty. -/
def Expr.isEmptyList : Expr → Bool
  | .and [] => true
  | .or [] => true
  | _ => false

/-- Embeds `goqu.And(...)`: goqu's `NewExpressionList` drops arguments that
are empty expression lists. -/
def gAnd (xs : List Expr) : Expr :=
  Expr.and (xs.filter (fun e => !e.isEmptyList))

/-- Embeds `goqu.Or(...)`, with the same empty-argument elision. -/
def gOr (xs : List Expr) : Expr :=
  Expr.or (xs.filter (fun e => !e.isEmptyList))

/-- A database row as seen by the generated WHERE clause: the JSON fields the
leaves inspect.  `none` means the key is absent from `data`. -/
structure Row where
  apigroupVal : Option String
  kindVal : Option String
  nsVal : Option String
  hubMarker : Bool
deriving DecidableEq, Repr

mutual

/-- Evaluates an expression on a row, with SQL semantics for the leaves.  By
construction (`gAnd`/`gOr` drop empty lists) an empty list node can only occur
at top level, where goqu elides the whole WHERE clause; that case is handled
by `matchesRow`. -/
def evalExpr (r : Row) : Expr → Bool
  | .and xs => evalAll r xs
  | .or xs => evalAny r xs
  | .apigroupAbsent => r.apigroupVal == none
  | .apigroupIs g => r.apigroupVal == some g
  | .kindIs k => r.kindVal == some k
  | .namespaceAbsent => r.nsVal == none
  | .namespaceIs ns => r.nsVal == some ns
  | .namespaceIn nss => nss.any (fun ns => r.nsVal == some ns)
  | .hubMarkerPresent => r.hubMarker

/-- Conjunction over a list of child expressions. -/
def evalAll (r : Row) : List Expr → Bool
  | [] => true
  | e :: es => evalExpr r e && evalAll r es

/-- Disjunction over a list of child expressions. -/
def evalAny (r : Row) : List Expr → Bool
  | [] => false
  | e :: es => evalExpr r e || evalAny r es

end

/-- Whether a row satisfies the expression when it is used as a WHERE clause:
goqu elides an empty expression list, so an empty expression imposes no
restriction. -/
def matchesRow (r : Row) (e : Expr) : Bool :=
  e.isEmptyList || evalExpr r e

/-- The per-entry clauses of the loop body of `matchApigroupKind`
(rbacHelper.go lines 21-38): the apigroup clause is omitted for `"*"`, is a
key-absence test for `""`, and an equality test otherwise; the kind clause is
omitted for `"*"`. -/
def entryClauses (clusterRes : Resource) : List Expr :=
  (if clusterRes.apigroup ≠ "*" then
    [if clusterRes.apigroup = "" then Expr.apigroupAbsent
     else Expr.apigroupIs clusterRes.apigroup]
   else []) ++
  (if clusterRes.kind ≠ "*" then [Expr.kindIs clusterRes.kind] else [])

/-- The iterations of the loop of `matchApigroupKind` after the first one:
each step either short-circuits on a fully wildcarded entry (returning
`goqu.Or()`) or wraps the accumulator as
`whereCsDs = goqu.Or(whereCsDs, goqu.And(whereOrDs...))`. -/
def matchApigroupKindAux (acc : Expr) : List Resource → Expr
  | [] => acc
  | clusterRes :: rest =>
    if clusterRes.apigroup = "*" ∧ clusterRes.kind = "*" then Expr.or []
    else matchApigroupKindAux (gOr [acc, gAnd (entryClauses clusterRes)]) rest

/-- Embeds `matchApigroupKind` (rbacHelper.go lines 18-55).  The first
iteration sets `whereCsDs = goqu.And(whereOrDs...)`; on the empty list Go
returns the zero-valued expression list, modelled as the empty AND. -/
def matchApigroupKind : List Resource → Expr
  | [] => Expr.and []
  | clusterRes :: rest =>
    if clusterRes.apigroup = "*" ∧ clusterRes.kind = "*" then Expr.or []
    else matchApigroupKindAux (gAnd (entryClauses clusterRes)) rest

/-- Embeds `matchClusterScopedResources` (rbacHelper.go lines 60-76): empty
clause for no access, empty clause for blanket `{*,*}` access, otherwise the
namespace-absence test conjoined with the apigroup/kind disjunction. -/
def matchClusterScopedResources (csRes : List Resource) (_userInfo : UserInfo) : Expr :=
  if csRes.length = 0 then Expr.or []
  else if csRes.length = 1 ∧ (csRes.headD ⟨"", ""⟩).apigroup = "*" ∧
      (csRes.headD ⟨"", ""⟩).kind = "*" then Expr.or []
  else gAnd [Expr.namespaceAbsent, matchApigroupKind csRes]

/-- Go-map lookup on an association list (`m[k]` returning `ok`). -/
def alookup [DecidableEq α] : List (α × β) → α → Option β
  | [], _ => none
  | (k, v) :: rest, a => if k = a then some v else alookup rest a

/-- Go's `m[k] = append(m[k], vs...)` on an association list: appends to the
entry when the key is present, otherwise adds the key at the end. -/
def assocAppend [DecidableEq α] : List (α × List β) → α → List β → List (α × List β)
  | [], k, vs => [(k, vs)]
  | (k', vs') :: rest, k, vs =>
    if k' = k then (k', vs' ++ vs) :: rest
    else (k', vs') :: assocAppend rest k vs

/-- Modelled from the spec: `rbac.GetKeys` (not under src/) returns the keys
of a map; the spec requires "a deterministic ordering of group keys so that
generated predicates are stable across runs for a given snapshot", so the
keys are returned in sorted order. -/
def getKeys (m : List (String × α)) : List String :=
  List.insertionSort (· ≤ ·) (m.map Prod.fst)

/-- Modelled from the spec: `rbac.GetKeys` for maps keyed by a serialized
resource list.  `json.Marshal` of a `[]rbac.Resource` is deterministic and
injective (it round-trips through `json.Unmarshal`), so the serialized key is
modelled as the resource list itself; the deterministic ordering sorts by the
lexicographic order on resource lists. -/
def getKeysR (m : List (List Resource × β)) : List (List Resource) :=
  List.insertionSort (· ≤ ·) (m.map Prod.fst)

/-- The grouping loop of `consolidateNsResources` (rbacHelper.go lines
145-157): for each namespace, append it to the group of its serialized
resource list (`m[string(b)] = append(...)` / `m[string(b)] = []string{ns}`).
Serialization is modelled as the identity on resource lists (see `getKeysR`),
so the marshal-error branch is unreachable. -/
def groupMapAux : List (String × List Resource) → List (List Resource × List String) →
    List (List Resource × List String)
  | [], m => m
  | (ns, resources) :: rest, m => groupMapAux rest (assocAppend m resources [ns])

/-- Embeds `consolidateNsResources` (rbacHelper.go lines 142-161): groups
namespaces by identical serialized resource sets and returns the group map
together with the ordered list of its keys. -/
def consolidateNsResources (nsResources : List (String × List Resource)) :
    List (List Resource × List String) × List (List Resource) :=
  let m := groupMapAux nsResources []
  (m, getKeysR m)

/-- Embeds the fields of `rbac.UserData` read by the synthesizer.  The type
itself lives outside src/; the field shapes are those used by
`rbacHelper.go`: cluster-scoped resources, the namespace-scoped resource map,
and the consolidated group map (serialized keys modelled as resource lists,
see `getKeysR`). -/
structure UserData where
  CsResources : List Resource
  NsResources : List (String × List Resource)
  ConsolidatedNsResources : List (List Resource × List String)
deriving DecidableEq, Repr

/-- Embeds `matchNamespacedResources` (rbacHelper.go lines 82-136) on the
consolidated path (the `json.Unmarshal` of a key produced by `json.Marshal`
cannot fail, so the non-consolidated fallback branch is not reached).  Each
group contributes `AND(namespace ?| group-namespaces, matchApigroupKind)`;
the group's namespace list stands for the lookup-table subquery (modelled
from the spec, see `Expr.namespaceIn`). -/
def matchNamespacedResources (userData : UserData) (_userInfo : UserInfo) : Expr :=
  let namespaces := getKeys userData.NsResources
  if userData.NsResources.length < 1 then gOr []
  else if userData.NsResources.length = 1 ∧ namespaces.headD "" = "*" then Expr.or []
  else
    gOr ((getKeysR userData.ConsolidatedNsResources).map (fun resources =>
      gAnd [Expr.namespaceIn ((alookup userData.ConsolidatedNsResources resources).getD []),
            matchApigroupKind resources]))

/-- Embeds the non-consolidated fallback of `matchNamespacedResources`
(rbacHelper.go lines 124-132), reached in Go when unmarshaling a consolidated
key fails: one `AND(namespace ? ns, matchApigroupKind)` clause per raw
namespace, under the same guards as the consolidated path. -/
def matchNamespacedResourcesNoConsolidation (userData : UserData) (_userInfo : UserInfo) : Expr :=
  let namespaces := getKeys userData.NsResources
  if userData.NsResources.length < 1 then gOr []
  else if userData.NsResources.length = 1 ∧ namespaces.headD "" = "*" then Expr.or []
  else
    gOr (namespaces.map (fun ns =>
      gAnd [Expr.namespaceIs ns,
            matchApigroupKind ((alookup userData.NsResources ns).getD [])]))

/-- Embeds `matchHubCluster` (rbacHelper.go lines 169-183): the empty AND when
the user has no cluster-scoped and no namespace-scoped access, otherwise the
hub-marker test conjoined with the disjunction of the two scopes. -/
def matchHubCluster (userrbac : UserData) (userInfo : UserInfo) : Expr :=
  if userrbac.CsResources.length = 0 ∧ userrbac.NsResources.length = 0 then Expr.and []
  else
    gAnd [Expr.hubMarkerPresent,
          gOr [matchClusterScopedResources userrbac.CsResources userInfo,
               matchNamespacedResources userrbac userInfo]]


/-- A rule returned by a `SelfSubjectRulesReview` (the fields of
`result.Status.ResourceRules` the code reads). -/
structure Rule where
  verbs : List String
  apigroups : List String
  resources : List String
deriving DecidableEq, Repr

/-- A namespace item returned by the hub namespace listing (`Namespaces().List`):
its name and the keys of its labels map (label keys in one iteration order;
Go map iteration order is arbitrary). -/
structure NsItem where
  name : String
  labels : List String
deriving DecidableEq, Repr

/-- The external collaborators of one refresh, as oracles: the hub namespace
listing and its error (which `getManagedClusters` discards), the per-namespace
`SelfSubjectRulesReviews` result, the per-resource `SelfSubjectAccessReview`
answer, and the outcome of building the impersonation clientset. -/
structure Providers where
  nsList : List NsItem
  nsListErr : Option String
  ssrr : String → List Rule
  canListCs : Resource → Bool
  impersonation : Except String Unit

/-- The shared (process-wide) cache fields read by the user refresh
(`cache.shared.namespaces`, `cache.shared.nsErr`, `cache.shared.csResources`). -/
structure SharedCache where
  namespaces : List String
  nsErr : Option String
  csResources : List Resource

/-- Embeds the `userData` struct of the rbac cache: the three sub-caches with
their error fields and update timestamps (times in milliseconds as integers;
the mutexes guard concurrent access and carry no state), and the lazily
created impersonation client (`authzClient`), modelled by whether it exists. -/
structure UserDataState where
  managedClusters : List (String × String)
  csResources : List Resource
  nsResources : List (String × List Resource)
  clustersErr : Option String
  clustersUpdatedAt : Int
  csrErr : Option String
  csrUpdatedAt : Int
  nsrErr : Option String
  nsrUpdatedAt : Int
  authzClient : Bool
deriving DecidableEq, Repr

/-- The zero value `userData{}` allocated by `GetUserData` on a cache miss or
expiry. -/
def emptyUserData : UserDataState :=
  ⟨[], [], [], none, 0, none, 0, none, 0, false⟩

/-- Helper for `strContains`: whether the second list is a prefix of the
first. -/
def listStartsWith [BEq α] : List α → List α → Bool
  | _, [] => true
  | [], _ :: _ => false
  | a :: as, b :: bs => a == b && listStartsWith as bs

/-- Helper for `strContains`: whether `sub` occurs inside the list. -/
def listContainsSub [BEq α] (sub : List α) : List α → Bool
  | [] => sub.isEmpty
  | a :: rest => listStartsWith (a :: rest) sub || listContainsSub sub rest

/-- Embeds Go's `strings.Contains`. -/
def strContains (s sub : String) : Bool :=
  listContainsSub sub.toList s.toList

/-- Go's `m[k] = v` on an association list: overwrite the entry when the key
is present, otherwise add the key at the end. -/
def assocStore [DecidableEq α] : List (α × β) → α → β → List (α × β)
  | [], k, v => [(k, v)]
  | (k', v') :: rest, k, v =>
    if k' = k then (k, v) :: rest else (k', v') :: assocStore rest k v

/-- The listing loop of `getManagedClusters` (lines 339-347 of the cache
file): for each namespace item, store the first label key containing
"managedCluster", if any. -/
def buildManagedClusters (items : List NsItem) : List (String × String) :=
  items.foldl (fun acc item =>
    match item.labels.find? (fun l => strContains l "managedCluster") with
    | some l => assocStore acc item.name l
    | none => acc) []

/-- Embeds `getFromMap(m, "values")`: the values of the map, in one iteration
order. -/
def getFromMapValues (m : List (String × String)) : List String :=
  m.map Prod.snd

/-- Embeds `getManagedClusters` (lines 308-352): serve from the clusters
sub-cache while it is nonempty, fresh, and its first value contains
"managedCluster"; otherwise rebuild the map from the hub namespace listing.
The listing error is discarded (`namespaceList, _ :=`), the map is reset
before the listing result is read (a failed listing yields no items), and
`clustersErr` is set to nil on both paths.  Returns the new state, the
returned map and the returned error. -/
def getManagedClusters (user : UserDataState) (now ttl : Int) (p : Providers) :
    UserDataState × List (String × String) × Option String :=
  if user.managedClusters.length > 0 ∧ now < user.clustersUpdatedAt + ttl ∧
      strContains ((getFromMapValues user.managedClusters).headD "") "managedCluster" = true then
    let u := { user with clustersErr := none }
    (u, u.managedClusters, u.clustersErr)
  else
    let mc := buildManagedClusters p.nsList
    let u := { user with managedClusters := mc, clustersUpdatedAt := now, clustersErr := none }
    (u, mc, u.clustersErr)

/-- Embeds `getImpersonationClientSet` (lines 288-305): reuse the client when
present, otherwise try to create it. -/
def getImpersonationClientSet (user : UserDataState) (p : Providers) :
    UserDataState × Except String Unit :=
  if user.authzClient then (user, Except.ok ())
  else
    match p.impersonation with
    | Except.ok _ => ({ user with authzClient := true }, Except.ok ())
    | Except.error e => (user, Except.error e)

/-- The rule-expansion loops of `getNamespacedResources` (lines 268-279): for
each rule, each verb that is "list" or "*", each resource and each apigroup,
one `resource{apigroup, kind}` entry. -/
def expandRules (rules : List Rule) : List Resource :=
  rules.foldl (fun acc rule =>
    rule.verbs.foldl (fun acc2 verb =>
      if verb = "list" ∨ verb = "*" then
        rule.resources.foldl (fun acc3 res =>
          acc3 ++ rule.apigroups.map (fun api => (⟨api, res⟩ : Resource))) acc2
      else acc2) acc) []

/-- Embeds the `intersection` helper (lines 355-370): the elements of the
first list that occur in the second, with a nil error. -/
def intersection (a1 a2 : List String) : List String × Option String :=
  (a1.filter (fun x => a2.contains x), none)

/-- One iteration of the namespace loop of `getNamespacedResources` (lines
255-280): append the expanded rule entries for one namespace to
`user.nsResources[ns]`; a namespace with no matching entries never becomes a
key. -/
def nsStep (ssrr : String → List Rule) (acc : List (String × List Resource))
    (ns : String) : List (String × List Resource) :=
  let entries := expandRules (ssrr ns)
  if entries.isEmpty then acc else assocAppend acc ns entries

/-- The namespace loop of `getNamespacedResources` (lines 255-280) over all
candidate namespaces, starting from the freshly reset empty map. -/
def buildNsResources (ssrr : String → List Rule) (nss : List String) :
    List (String × List Resource) :=
  nss.foldl (nsStep ssrr) []

/-- Embeds `getNamespacedResources` (lines 210-286): refresh the managed
clusters first; serve the namespaced sub-cache while nonempty and fresh; bail
out (without touching the sub-cache) when the shared namespace list is empty
or the impersonation client cannot be built; otherwise rebuild
`nsResources` over the intersection of the shared namespaces with the
managed-cluster namespace names and stamp `nsrUpdatedAt`. -/
def getNamespacedResources (user : UserDataState) (now ttl : Int)
    (shared : SharedCache) (p : Providers) : UserDataState × Option String :=
  let mcr := getManagedClusters user now ttl p
  let user1 := mcr.1
  if user1.nsResources.length > 0 ∧ now < user1.nsrUpdatedAt + ttl then
    ({ user1 with nsrErr := none }, none)
  else
    let allNamespaces := shared.namespaces
    if allNamespaces.length = 0 then (user1, shared.nsErr)
    else
      let user2 := { user1 with csrErr := none }
      match getImpersonationClientSet user2 p with
      | (user3, Except.error e) => (user3, some e)
      | (user3, Except.ok _) =>
        let managedClusterNs := mcr.2.1.map Prod.fst
        let candidates := (intersection allNamespaces managedClusterNs).1
        let user4 := { user3 with
          nsResources := buildNsResources p.ssrr candidates,
          nsrUpdatedAt := now }
        (user4, user4.nsrErr)

/-- Embeds `getClusterScopedResources` (lines 151-181): clear `csrErr`, bail
out when the shared catalog is empty or the impersonation client cannot be
built, otherwise keep exactly the catalog entries the user may list and stamp
`csrUpdatedAt`. -/
def getClusterScopedResources (user : UserDataState) (now : Int)
    (shared : SharedCache) (p : Providers) : UserDataState × Option String :=
  let user0 := { user with csrErr := none }
  if shared.csResources.length = 0 then (user0, user0.csrErr)
  else
    match getImpersonationClientSet user0 p with
    | (user1, Except.error e) =>
      let u := { user1 with csrErr := some e }
      (u, u.csrErr)
    | (user1, Except.ok _) =>
      let u := { user1 with
        csResources := shared.csResources.filter (fun res => p.canListCs res),
        csrUpdatedAt := now }
      (u, u.csrErr)

/-- Embeds `userCacheValid` (lines 142-148): the snapshot is valid while both
the cluster-scoped and the namespaced update times are within the TTL; the
clusters timestamp is not consulted. -/
def userCacheValid (user : UserDataState) (now ttl : Int) : Bool :=
  decide (now < user.csrUpdatedAt + ttl) && decide (now < user.nsrUpdatedAt + ttl)

/-- The outcome of `GetUserData`: the updated user map, the returned
snapshot and error, and whether the refresh path ran (`refreshed = false`
means the cached snapshot was returned with no provider call). -/
structure GetUserDataResult where
  users : List (String × UserDataState)
  user : UserDataState
  err : Option String
  refreshed : Bool
deriving Repr

/-- The refresh path of `GetUserData`: allocate a fresh `userData{}`, store
it under the uid, refresh namespaced resources and, if that succeeded,
cluster-scoped resources (the stored entry is the pointer the refreshes
mutate, so the map ends up with the final state). -/
def getUserDataRefresh (users : List (String × UserDataState)) (uid : String)
    (now ttl : Int) (shared : SharedCache) (p : Providers) : GetUserDataResult :=
  let user0 := emptyUserData
  let r1 := getNamespacedResources user0 now ttl shared p
  let r2 := if r1.2 = none then getClusterScopedResources r1.1 now shared p else r1
  ⟨assocStore users uid r2.1, r2.1, r2.2, true⟩

/-- Embeds `GetUserData` (lines 107-138): return the cached snapshot when it
exists and `userCacheValid` holds; otherwise replace the entry with a fresh
`userData{}` and run the refresh path.  The test-only `authzClient` parameter
is not modelled. -/
def GetUserData (users : List (String × UserDataState)) (uid : String)
    (now ttl : Int) (shared : SharedCache) (p : Providers) : GetUserDataResult :=
  match alookup users uid with
  | some cached =>
    if userCacheValid cached now ttl then ⟨users, cached, none, false⟩
    else getUserDataRefresh users uid now ttl shared p
  | none => getUserDataRefresh users uid now ttl shared p
/-- A user snapshot holding data in every sub-cache and an impersonation
client, with all timestamps at 0; used to exercise the expiry path of
`GetUserData`. -/
def richUser : UserDataState :=
  ⟨[("mc1", "cluster.open-cluster-management.io/managedCluster")],
   [⟨"apps", "deployments"⟩],
   [("mc1", [⟨"", "pods"⟩])],
   none, 0, none, 0, none, 0, true⟩

/-- A shared cache with no namespaces and no cluster-scoped catalog. -/
def sharedEmpty : SharedCache := ⟨[], none, []⟩

/-- Providers returning nothing, with a working impersonation client. -/
def providersEmpty : Providers := ⟨[], none, fun _ => [], fun _ => false, Except.ok ()⟩

/-- A user whose clusters sub-cache holds one managed cluster, stamped at
time 0. -/
def preClusters : UserDataState :=
  { emptyUserData with
    managedClusters := [("cluster1", "managedCluster-label")],
    clustersUpdatedAt := 0 }

/-- Providers whose hub namespace listing fails: no items are returned and
the listing error is set (which `getManagedClusters` discards). -/
def failingProviders : Providers :=
  ⟨[], some "connection refused", fun _ => [], fun _ => false, Except.ok ()⟩

/-- A shared cache with two hub namespaces. -/
def sharedTwoNs : SharedCache := ⟨["ns1", "mc1"], none, []⟩

/-- Providers for the namespaced-refresh witness: one managed-cluster
namespace `mc1`, and a rules review granting `list` on apps/deployments in
every namespace. -/
def providersMc : Providers :=
  ⟨[⟨"mc1", ["managedCluster-x"]⟩], none,
   fun _ => [⟨["list"], ["apps"], ["deployments"]⟩],
   fun _ => false, Except.ok ()⟩

lemma evalAll_eq (r : Row) (l : List Expr) : evalAll r l = l.all (evalExpr r) := by
  induction l with
  | nil => rfl
  | cons e es ih => simp [evalAll, ih]

lemma evalAny_eq (r : Row) (l : List Expr) : evalAny r l = l.any (evalExpr r) := by
  induction l with
  | nil => rfl
  | cons e es ih => simp [evalAny, ih]

lemma matchApigroupKindAux_wildcard (l : List Resource)
    (h : ∃ res ∈ l, res.apigroup = "*" ∧ res.kind = "*") :
    ∀ acc, matchApigroupKindAux acc l = Expr.or [] := by
  induction l with
  | nil => simp at h
  | cons x rest ih =>
    intro acc
    by_cases hx : x.apigroup = "*" ∧ x.kind = "*"
    · simp [matchApigroupKindAux, hx]
    · have hrest : ∃ res ∈ rest, res.apigroup = "*" ∧ res.kind = "*" := by
        rcases h with ⟨res, hres, hw⟩
        rcases List.mem_cons.mp hres with heq | hres'
        · exact absurd (heq ▸ hw) hx
        · exact ⟨res, hres', hw⟩
      simp [matchApigroupKindAux, hx, ih hrest]

/-- C4: for every resource sequence containing a fully wildcarded entry,
`matchApigroupKind` short-circuits to `goqu.Or()` — the empty expression,
which imposes no restriction wherever it is rendered (the always-true
expression) — regardless of the other entries and of the position of the
wildcarded entry. -/
theorem matchApigroupKind_wildcard_short_circuit (resources : List Resource)
    (h : ∃ res ∈ resources, res.apigroup = "*" ∧ res.kind = "*") :
    matchApigroupKind resources = Expr.or [] ∧
    ∀ r : Row, matchesRow r (matchApigroupKind resources) = true := by
  have hmain : matchApigroupKind resources = Expr.or [] := by
    cases resources with
    | nil => simp at h
    | cons x rest =>
      by_cases hx : x.apigroup = "*" ∧ x.kind = "*"
      · simp [matchApigroupKind, hx]
      · have hrest : ∃ res ∈ rest, res.apigroup = "*" ∧ res.kind = "*" := by
          rcases h with ⟨res, hres, hw⟩
          rcases List.mem_cons.mp hres with heq | hres'
          · exact absurd (heq ▸ hw) hx
          · exact ⟨res, hres', hw⟩
        simp [matchApigroupKind, hx, matchApigroupKindAux_wildcard rest hrest]
  exact ⟨hmain, fun r => by simp [hmain, matchesRow, Expr.isEmptyList]⟩

/-- Witness for C4 at a concrete sequence with the wildcard in the middle. -/
theorem matchApigroupKind_wildcard_short_circuit_witness :
    (∃ res ∈ ([⟨"a", "b"⟩, ⟨"*", "*"⟩, ⟨"c", "d"⟩] : List Resource),
      res.apigroup = "*" ∧ res.kind = "*") ∧
    matchApigroupKind [⟨"a", "b"⟩, ⟨"*", "*"⟩, ⟨"c", "d"⟩] = Expr.or [] ∧
    matchesRow ⟨some "x", some "y", some "z", true⟩
      (matchApigroupKind [⟨"a", "b"⟩, ⟨"*", "*"⟩, ⟨"c", "d"⟩]) = true := by
  have h : ∃ res ∈ ([⟨"a", "b"⟩, ⟨"*", "*"⟩, ⟨"c", "d"⟩] : List Resource),
      res.apigroup = "*" ∧ res.kind = "*" := ⟨⟨"*", "*"⟩, by simp, rfl, rfl⟩
  exact ⟨h, (matchApigroupKind_wildcard_short_circuit _ h).1,
    (matchApigroupKind_wildcard_short_circuit _ h).2 _⟩

/-- Counterexample to C2: `matchClusterScopedResources` returns the very same
expression (`goqu.Or()`, the empty expression list) for the empty sequence
and for the blanket sequence `[{apigroup: "*", kind: "*"}]` — the two results
are not distinct expressions. -/
theorem matchClusterScoped_empty_eq_blanket :
    matchClusterScopedResources [] ⟨"user1", "uid1"⟩ =
      matchClusterScopedResources [⟨"*", "*"⟩] ⟨"user1", "uid1"⟩ := rfl

/-- C2 amended: both the empty sequence and the blanket sequence yield the
empty OR expression; the results are equal, so blanket access is not
distinguishable from no access in the returned expression (both are elided
when the result is composed into an enclosing expression list). -/
theorem matchClusterScoped_empty_and_blanket (ui : UserInfo) :
    matchClusterScopedResources [] ui = Expr.or [] ∧
    matchClusterScopedResources [⟨"*", "*"⟩] ui = Expr.or [] ∧
    matchClusterScopedResources [] ui = matchClusterScopedResources [⟨"*", "*"⟩] ui :=
  ⟨rfl, rfl, rfl⟩

/-- C1: when the snapshot has no cluster-scoped and no namespace-scoped
resources, `matchHubCluster` returns `goqu.And()` — the empty expression,
which goqu drops from any expression list it is composed into, so the hub
disjunct of the generated filter contributes no objects: hub-resident objects
are excluded entirely from the filter via the hub clause. -/
theorem matchHubCluster_no_access (ud : UserData) (ui : UserInfo)
    (hcs : ud.CsResources = []) (hns : ud.NsResources = []) :
    matchHubCluster ud ui = Expr.and [] ∧
    ∀ rest : List Expr, gOr (matchHubCluster ud ui :: rest) = gOr rest := by
  have h1 : matchHubCluster ud ui = Expr.and [] := by
    simp [matchHubCluster, hcs, hns]
  refine ⟨h1, fun rest => ?_⟩
  simp [h1, gOr, Expr.isEmptyList]

/-- Witness for C1 at the empty snapshot, composed next to a sample managed
cluster clause. -/
theorem matchHubCluster_no_access_witness :
    (⟨[], [], []⟩ : UserData).CsResources = [] ∧
    (⟨[], [], []⟩ : UserData).NsResources = [] ∧
    matchHubCluster ⟨[], [], []⟩ ⟨"user1", "uid1"⟩ = Expr.and [] ∧
    gOr [matchHubCluster ⟨[], [], []⟩ ⟨"user1", "uid1"⟩, Expr.hubMarkerPresent] =
      gOr [Expr.hubMarkerPresent] :=
  ⟨rfl, rfl, (matchHubCluster_no_access ⟨[], [], []⟩ ⟨"user1", "uid1"⟩ rfl rfl).1,
    (matchHubCluster_no_access ⟨[], [], []⟩ ⟨"user1", "uid1"⟩ rfl rfl).2 [Expr.hubMarkerPresent]⟩

/-- C5: the TTL boundary of the user cache.  A snapshot whose relevant
sub-caches (cluster-scoped and namespaced) were refreshed at time `T` is
served from cache, with no provider call (`refreshed = false`), at any time
`T + ttl - eps` with `eps > 0`; at `T + ttl + eps` the snapshot is no longer
valid and `GetUserData` runs the refresh path.  `userCacheValid` compares
`now < lastUpdated + TTL` for both sub-caches. -/
theorem getUserData_ttl_boundary (users : List (String × UserDataState)) (uid : String)
    (cached : UserDataState) (T ttl eps : Int) (shared : SharedCache) (p : Providers)
    (hlook : alookup users uid = some cached)
    (hcs : cached.csrUpdatedAt = T) (hns : cached.nsrUpdatedAt = T) (heps : 0 < eps) :
    GetUserData users uid (T + ttl - eps) ttl shared p = ⟨users, cached, none, false⟩ ∧
    (GetUserData users uid (T + ttl + eps) ttl shared p).refreshed = true := by
  have hvalid : userCacheValid cached (T + ttl - eps) ttl = true := by
    simp only [userCacheValid, hcs, hns, Bool.and_eq_true, decide_eq_true_eq]
    omega
  have hinvalid : userCacheValid cached (T + ttl + eps) ttl = false := by
    simp only [userCacheValid, hcs, hns, Bool.and_eq_false_iff, decide_eq_false_iff_not]
    omega
  constructor
  · simp [GetUserData, hlook, hvalid]
  · simp [GetUserData, hlook, hinvalid, getUserDataRefresh]

/-- Witness for C5 with a snapshot refreshed at T = 50, TTL = 100, eps = 1. -/
theorem getUserData_ttl_boundary_witness :
    alookup [("uid1", { emptyUserData with csrUpdatedAt := 50, nsrUpdatedAt := 50 })] "uid1" =
      some { emptyUserData with csrUpdatedAt := 50, nsrUpdatedAt := 50 } ∧
    (0 : Int) < 1 ∧
    GetUserData [("uid1", { emptyUserData with csrUpdatedAt := 50, nsrUpdatedAt := 50 })]
        "uid1" (50 + 100 - 1) 100 sharedEmpty providersEmpty =
      ⟨[("uid1", { emptyUserData with csrUpdatedAt := 50, nsrUpdatedAt := 50 })],
       { emptyUserData with csrUpdatedAt := 50, nsrUpdatedAt := 50 }, none, false⟩ ∧
    (GetUserData [("uid1", { emptyUserData with csrUpdatedAt := 50, nsrUpdatedAt := 50 })]
        "uid1" (50 + 100 + 1) 100 sharedEmpty providersEmpty).refreshed = true := by
  refine ⟨by decide, by decide, ?_, ?_⟩
  · exact (getUserData_ttl_boundary
      [("uid1", { emptyUserData with csrUpdatedAt := 50, nsrUpdatedAt := 50 })] "uid1"
      { emptyUserData with csrUpdatedAt := 50, nsrUpdatedAt := 50 } 50 100 1
      sharedEmpty providersEmpty (by decide) rfl rfl (by decide)).1
  · exact (getUserData_ttl_boundary
      [("uid1", { emptyUserData with csrUpdatedAt := 50, nsrUpdatedAt := 50 })] "uid1"
      { emptyUserData with csrUpdatedAt := 50, nsrUpdatedAt := 50 } 50 100 1
      sharedEmpty providersEmpty (by decide) rfl rfl (by decide)).2

/-- C10: `userCacheValid` reads only the cluster-scoped and namespaced update
timestamps.  Whenever both are within TTL the cached snapshot is returned as
is, with no refresh of any kind, and this holds for every value of
`clustersUpdatedAt` — the managed-clusters sub-cache may be arbitrarily
old. -/
theorem userCacheValid_ignores_clusters (users : List (String × UserDataState))
    (uid : String) (cached : UserDataState) (now ttl : Int)
    (shared : SharedCache) (p : Providers)
    (hlook : alookup users uid = some cached)
    (h1 : now < cached.csrUpdatedAt + ttl) (h2 : now < cached.nsrUpdatedAt + ttl) :
    userCacheValid cached now ttl = true ∧
    (∀ t : Int, userCacheValid { cached with clustersUpdatedAt := t } now ttl = true) ∧
    GetUserData users uid now ttl shared p = ⟨users, cached, none, false⟩ := by
  have hvalid : userCacheValid cached now ttl = true := by
    simp only [userCacheValid, Bool.and_eq_true, decide_eq_true_eq]
    exact ⟨h1, h2⟩
  refine ⟨hvalid, fun t => ?_, by simp [GetUserData, hlook, hvalid]⟩
  simp only [userCacheValid, Bool.and_eq_true, decide_eq_true_eq]
  exact ⟨h1, h2⟩

/-- Witness for C10: fresh csr/nsr timestamps but a clusters sub-cache last
updated far in the past. -/
theorem userCacheValid_ignores_clusters_witness :
    alookup [("uid1", { emptyUserData with clustersUpdatedAt := -999999 })] "uid1" =
      some { emptyUserData with clustersUpdatedAt := -999999 } ∧
    ((0 : Int) < 0 + 100 ∧ (0 : Int) < 0 + 100) ∧
    userCacheValid { emptyUserData with clustersUpdatedAt := -999999 } 0 100 = true ∧
    GetUserData [("uid1", { emptyUserData with clustersUpdatedAt := -999999 })] "uid1"
        0 100 sharedEmpty providersEmpty =
      ⟨[("uid1", { emptyUserData with clustersUpdatedAt := -999999 })],
       { emptyUserData with clustersUpdatedAt := -999999 }, none, false⟩ := by
  refine ⟨by decide, by decide, ?_, ?_⟩
  · exact (userCacheValid_ignores_clusters
      [("uid1", { emptyUserData with clustersUpdatedAt := -999999 })] "uid1"
      { emptyUserData with clustersUpdatedAt := -999999 } 0 100 sharedEmpty providersEmpty
      (by decide) (by decide) (by decide)).1
  · exact (userCacheValid_ignores_clusters
      [("uid1", { emptyUserData with clustersUpdatedAt := -999999 })] "uid1"
      { emptyUserData with clustersUpdatedAt := -999999 } 0 100 sharedEmpty providersEmpty
      (by decide) (by decide) (by decide)).2.2

/-- C6 is violated by the code: when `GetUserData` finds an existing but
expired entry, it allocates a fresh zero-valued `userData{}` and overwrites
the cache entry with it, so the previously cached managed clusters,
cluster-scoped resources, namespaced resources and the impersonation client
are all discarded rather than retained.  Here the cached entry `richUser`
holds data in every sub-cache and an impersonation client; after the expired
call the stored snapshot is the fresh struct (only the clusters timestamp was
restamped by the managed-clusters rebuild), with no client and with empty
sub-caches — including `csResources`, whose refresh never even ran in this
call (the shared catalog is empty). -/
theorem getUserData_expired_discards_cache :
    userCacheValid richUser 1000 10 = false ∧
    (GetUserData [("uid1", richUser)] "uid1" 1000 10 sharedEmpty providersEmpty).refreshed
      = true ∧
    (GetUserData [("uid1", richUser)] "uid1" 1000 10 sharedEmpty providersEmpty).user =
      { emptyUserData with clustersUpdatedAt := 1000 } ∧
    (GetUserData [("uid1", richUser)] "uid1" 1000 10 sharedEmpty providersEmpty).users =
      [("uid1", { emptyUserData with clustersUpdatedAt := 1000 })] ∧
    richUser.csResources ≠ [] ∧ richUser.nsResources ≠ [] ∧
    richUser.managedClusters ≠ [] ∧ richUser.authzClient = true ∧
    (GetUserData [("uid1", richUser)] "uid1" 1000 10 sharedEmpty providersEmpty).user.csResources
      = [] ∧
    (GetUserData [("uid1", richUser)] "uid1" 1000 10 sharedEmpty providersEmpty).user.authzClient
      = false := by
  decide

/-- Counterexample to C7: `getManagedClusters` with a failed hub listing (the
items are empty and the error is set) does not retain the previously cached
map and does not record the error — the map is reset to the empty rebuild
result and `clustersErr` is set to nil (the listing error is discarded by
`namespaceList, _ :=`). -/
theorem getManagedClusters_failure_counterexample :
    failingProviders.nsListErr = some "connection refused" ∧
    preClusters.managedClusters = [("cluster1", "managedCluster-label")] ∧
    (getManagedClusters preClusters 1000 100 failingProviders).1.managedClusters = [] ∧
    (getManagedClusters preClusters 1000 100 failingProviders).1.managedClusters ≠
      preClusters.managedClusters ∧
    (getManagedClusters preClusters 1000 100 failingProviders).1.clustersErr = none := by
  decide

/-- C7 amended: on the refresh path (clusters sub-cache not served from
cache), `getManagedClusters` rebuilds the map from whatever items the listing
returned — discarding the previous map — sets the clusters error field to
nil, discarding the listing error (the result does not depend on it at all),
and never returns an error to the caller. -/
theorem getManagedClusters_failure_resets (user : UserDataState) (now ttl : Int)
    (p : Providers)
    (hmiss : ¬(user.managedClusters.length > 0 ∧ now < user.clustersUpdatedAt + ttl ∧
      strContains ((getFromMapValues user.managedClusters).headD "") "managedCluster"
        = true)) :
    (getManagedClusters user now ttl p).1.managedClusters = buildManagedClusters p.nsList ∧
    (getManagedClusters user now ttl p).1.clustersErr = none ∧
    (getManagedClusters user now ttl p).2.2 = none ∧
    ∀ e : Option String,
      getManagedClusters user now ttl { p with nsListErr := e } =
        getManagedClusters user now ttl p := by
  refine ⟨?_, ?_, ?_, fun e => ?_⟩ <;>
    simp only [getManagedClusters] <;>
    first
      | rfl
      | rw [if_neg hmiss]

/-- Witness for the amended C7 at the concrete failing listing. -/
theorem getManagedClusters_failure_resets_witness :
    (¬(preClusters.managedClusters.length > 0 ∧
      (1000 : Int) < preClusters.clustersUpdatedAt + 100 ∧
      strContains ((getFromMapValues preClusters.managedClusters).headD "") "managedCluster"
        = true)) ∧
    (getManagedClusters preClusters 1000 100 failingProviders).1.managedClusters =
      buildManagedClusters failingProviders.nsList ∧
    (getManagedClusters preClusters 1000 100 failingProviders).1.clustersErr = none ∧
    (getManagedClusters preClusters 1000 100 failingProviders).2.2 = none :=
  ⟨by decide,
   (getManagedClusters_failure_resets preClusters 1000 100 failingProviders (by decide)).1,
   (getManagedClusters_failure_resets preClusters 1000 100 failingProviders (by decide)).2.1,
   (getManagedClusters_failure_resets preClusters 1000 100 failingProviders (by decide)).2.2.1⟩

lemma keys_assocAppend [DecidableEq α] (m : List (α × List β)) (k : α) (vs : List β) :
    (assocAppend m k vs).map Prod.fst =
      if k ∈ m.map Prod.fst then m.map Prod.fst else m.map Prod.fst ++ [k] := by
  induction m with
  | nil => simp [assocAppend]
  | cons p rest ih =>
    obtain ⟨k0, vs0⟩ := p
    by_cases h : k0 = k
    · subst h; simp [assocAppend]
    · simp only [assocAppend, if_neg h, List.map_cons]
      rw [ih]
      by_cases hk : k ∈ rest.map Prod.fst
      · rw [if_pos hk, if_pos (by simp [hk])]
      · rw [if_neg hk,
          if_neg (by simp only [List.mem_cons]; push_neg; exact ⟨Ne.symm h, hk⟩)]
        simp

lemma mem_keys_nsStep (ssrr : String → List Rule) (acc : List (String × List Resource))
    (ns k : String) (h : k ∈ (nsStep ssrr acc ns).map Prod.fst) :
    k ∈ acc.map Prod.fst ∨ k = ns := by
  simp only [nsStep] at h
  by_cases he : (expandRules (ssrr ns)).isEmpty
  · rw [if_pos he] at h; exact Or.inl h
  · rw [if_neg he, keys_assocAppend] at h
    by_cases hm : ns ∈ acc.map Prod.fst
    · rw [if_pos hm] at h; exact Or.inl h
    · rw [if_neg hm] at h
      rcases List.mem_append.mp h with h1 | h2
      · exact Or.inl h1
      · exact Or.inr (by simpa using h2)

lemma mem_keys_foldl_nsStep (ssrr : String → List Rule) (nss : List String) :
    ∀ (acc : List (String × List Resource)) (k : String),
      k ∈ ((nss.foldl (nsStep ssrr) acc).map Prod.fst) →
      k ∈ acc.map Prod.fst ∨ k ∈ nss := by
  induction nss with
  | nil => intro acc k h; exact Or.inl h
  | cons ns rest ih =>
    intro acc k h
    simp only [List.foldl_cons] at h
    rcases ih (nsStep ssrr acc ns) k h with h1 | h2
    · rcases mem_keys_nsStep ssrr acc ns k h1 with h3 | h3
      · exact Or.inl h3
      · exact Or.inr (by simp [h3])
    · exact Or.inr (List.mem_cons_of_mem _ h2)

lemma mem_keys_buildNsResources (ssrr : String → List Rule) (nss : List String)
    (k : String) (h : k ∈ (buildNsResources ssrr nss).map Prod.fst) : k ∈ nss := by
  rcases mem_keys_foldl_nsStep ssrr nss [] k h with h1 | h1
  · simp at h1
  · exact h1

lemma getManagedClusters_preserves (user : UserDataState) (now ttl : Int) (p : Providers) :
    (getManagedClusters user now ttl p).1.nsResources = user.nsResources ∧
    (getManagedClusters user now ttl p).1.nsrUpdatedAt = user.nsrUpdatedAt ∧
    (getManagedClusters user now ttl p).1.authzClient = user.authzClient := by
  unfold getManagedClusters
  split <;> exact ⟨rfl, rfl, rfl⟩

lemma getImpersonationClientSet_snd_ok (user : UserDataState) (p : Providers)
    (h : user.authzClient = true ∨ p.impersonation = Except.ok ()) :
    (getImpersonationClientSet user p).2 = Except.ok () := by
  unfold getImpersonationClientSet
  by_cases ha : user.authzClient = true
  · rw [if_pos ha]
  · rcases h with h | h
    · exact absurd h ha
    · rw [if_neg ha, h]

/-- C8: after a completed run of the namespaced-resources refresh (the run
reached the rebuild: the sub-cache was stale, the shared namespace list was
nonempty and an impersonation client was available), every key of the
rebuilt `nsResources` map lies in the shared topology's namespace list and
among the managed-cluster namespace names returned by this run's
`getManagedClusters` — a namespace that is not a managed-cluster namespace
or does not exist on the hub never appears as a key. -/
theorem nsResources_keys_subset (user : UserDataState) (now ttl : Int)
    (shared : SharedCache) (p : Providers)
    (hstale : ¬(user.nsResources.length > 0 ∧ now < user.nsrUpdatedAt + ttl))
    (hshared : ¬(shared.namespaces.length = 0))
    (himp : user.authzClient = true ∨ p.impersonation = Except.ok ()) :
    ∀ ns ∈ ((getNamespacedResources user now ttl shared p).1.nsResources.map Prod.fst),
      ns ∈ shared.namespaces ∧
      ns ∈ ((getManagedClusters user now ttl p).2.1.map Prod.fst) := by
  intro ns hns
  have hpres := getManagedClusters_preserves user now ttl p
  have hstale2 : ¬((getManagedClusters user now ttl p).1.nsResources.length > 0 ∧
      now < (getManagedClusters user now ttl p).1.nsrUpdatedAt + ttl) := by
    rw [hpres.1, hpres.2.1]; exact hstale
  unfold getNamespacedResources at hns
  rw [if_neg hstale2, if_neg hshared] at hns
  dsimp only at hns
  split at hns
  next user3 e heq =>
    exfalso
    have herr : (getImpersonationClientSet
        { (getManagedClusters user now ttl p).1 with csrErr := none } p).2 =
        Except.error e := by rw [heq]
    have hok : (getImpersonationClientSet
        { (getManagedClusters user now ttl p).1 with csrErr := none } p).2 =
        Except.ok () :=
      getImpersonationClientSet_snd_ok _ p (by
        rcases himp with h | h
        · exact Or.inl (show ({ (getManagedClusters user now ttl p).1 with
            csrErr := none } : UserDataState).authzClient = true from hpres.2.2.trans h)
        · exact Or.inr h)
    rw [herr] at hok
    exact Except.noConfusion hok
  next user3 a heq =>
    have hcand : ns ∈ (intersection shared.namespaces
        ((getManagedClusters user now ttl p).2.1.map Prod.fst)).1 :=
      mem_keys_buildNsResources _ _ _ (by simpa using hns)
    simp only [intersection, List.mem_filter] at hcand
    exact ⟨hcand.1, by simpa using hcand.2⟩

/-- Witness for C8: an empty user at time 0 with TTL 10, shared namespaces
`ns1, mc1` of which only `mc1` is a managed-cluster namespace; the rebuilt
map has exactly the key `mc1`, which lies in both lists. -/
theorem nsResources_keys_subset_witness :
    (¬(emptyUserData.nsResources.length > 0 ∧ (0 : Int) < emptyUserData.nsrUpdatedAt + 10)) ∧
    (¬(sharedTwoNs.namespaces.length = 0)) ∧
    providersMc.impersonation = Except.ok () ∧
    (getNamespacedResources emptyUserData 0 10 sharedTwoNs providersMc).1.nsResources.map
      Prod.fst = ["mc1"] ∧
    ("mc1" ∈ sharedTwoNs.namespaces ∧
      "mc1" ∈ ((getManagedClusters emptyUserData 0 10 providersMc).2.1.map Prod.fst)) :=
  ⟨by decide, by decide, rfl, by decide,
   nsResources_keys_subset emptyUserData 0 10 sharedTwoNs providersMc
     (by decide) (by decide) (Or.inr rfl) "mc1" (by decide)⟩

lemma self_mem_keys_assocAppend [DecidableEq α] (m : List (α × List β)) (k : α)
    (vs : List β) : k ∈ (assocAppend m k vs).map Prod.fst := by
  rw [keys_assocAppend]
  by_cases hm : k ∈ m.map Prod.fst
  · rw [if_pos hm]; exact hm
  · rw [if_neg hm]; simp

lemma keys_subset_assocAppend [DecidableEq α] (m : List (α × List β)) (k k' : α)
    (vs : List β) (h : k' ∈ m.map Prod.fst) : k' ∈ (assocAppend m k vs).map Prod.fst := by
  rw [keys_assocAppend]
  by_cases hm : k ∈ m.map Prod.fst
  · rw [if_pos hm]; exact h
  · rw [if_neg hm]; exact List.mem_append_left _ h

lemma mem_keys_assocAppend_elim [DecidableEq α] (m : List (α × List β)) (k k' : α)
    (vs : List β) (h : k' ∈ (assocAppend m k vs).map Prod.fst) :
    k' ∈ m.map Prod.fst ∨ k' = k := by
  rw [keys_assocAppend] at h
  by_cases hm : k ∈ m.map Prod.fst
  · rw [if_pos hm] at h; exact Or.inl h
  · rw [if_neg hm] at h
    rcases List.mem_append.mp h with h1 | h1
    · exact Or.inl h1
    · exact Or.inr (by simpa using h1)

lemma nodup_keys_assocAppend [DecidableEq α] (m : List (α × List β)) (k : α)
    (vs : List β) (h : (m.map Prod.fst).Nodup) :
    ((assocAppend m k vs).map Prod.fst).Nodup := by
  rw [keys_assocAppend]
  by_cases hm : k ∈ m.map Prod.fst
  · rw [if_pos hm]; exact h
  · rw [if_neg hm]
    simp [List.nodup_append, h, hm]

lemma mem_keys_groupMapAux_elim (l : List (String × List Resource)) :
    ∀ (m : List (List Resource × List String)) (k : List Resource),
      k ∈ (groupMapAux l m).map Prod.fst →
      k ∈ m.map Prod.fst ∨ ∃ ns, (ns, k) ∈ l := by
  induction l with
  | nil => intro m k h; exact Or.inl h
  | cons p rest ih =>
    obtain ⟨ns0, res0⟩ := p
    intro m k h
    simp only [groupMapAux] at h
    rcases ih _ k h with h1 | h1
    · rcases mem_keys_assocAppend_elim m res0 k [ns0] h1 with h2 | h2
      · exact Or.inl h2
      · exact Or.inr ⟨ns0, by simp [h2]⟩
    · obtain ⟨ns, hns⟩ := h1
      exact Or.inr ⟨ns, List.mem_cons_of_mem _ hns⟩

lemma keys_subset_groupMapAux (l : List (String × List Resource)) :
    ∀ (m : List (List Resource × List String)) (k : List Resource),
      k ∈ m.map Prod.fst → k ∈ (groupMapAux l m).map Prod.fst := by
  induction l with
  | nil => intro m k h; exact h
  | cons p rest ih =>
    obtain ⟨ns0, res0⟩ := p
    intro m k h
    simp only [groupMapAux]
    exact ih _ k (keys_subset_assocAppend m res0 k [ns0] h)

lemma mem_keys_groupMapAux_intro (l : List (String × List Resource)) :
    ∀ (m : List (List Resource × List String)) (k : List Resource) (ns : String),
      (ns, k) ∈ l → k ∈ (groupMapAux l m).map Prod.fst := by
  induction l with
  | nil => intro m k ns h; simp at h
  | cons p rest ih =>
    obtain ⟨ns0, res0⟩ := p
    intro m k ns h
    simp only [groupMapAux]
    rcases List.mem_cons.mp h with heq | hr
    · have hk : k = res0 := by
        have := congrArg Prod.snd heq
        simpa using this
      subst hk
      exact keys_subset_groupMapAux rest _ k (self_mem_keys_assocAppend m k [ns0])
    · exact ih _ k ns hr

lemma nodup_keys_groupMapAux (l : List (String × List Resource)) :
    ∀ (m : List (List Resource × List String)), (m.map Prod.fst).Nodup →
      ((groupMapAux l m).map Prod.fst).Nodup := by
  induction l with
  | nil => intro m h; exact h
  | cons p rest ih =>
    obtain ⟨ns0, res0⟩ := p
    intro m h
    simp only [groupMapAux]
    exact ih _ (nodup_keys_assocAppend m res0 [ns0] h)

lemma mem_keys_groupMap (l : List (String × List Resource)) (k : List Resource) :
    k ∈ (groupMapAux l []).map Prod.fst ↔ ∃ ns, (ns, k) ∈ l := by
  constructor
  · intro h
    rcases mem_keys_groupMapAux_elim l [] k h with h1 | h1
    · simp at h1
    · exact h1
  · rintro ⟨ns, hns⟩
    exact mem_keys_groupMapAux_intro l [] k ns hns

/-- C9: the ordered sequence of group keys produced by
`consolidateNsResources` is a deterministic function of the map's contents:
any two association-list representations of the same namespace-scoped
permission map (permutations of each other) yield the same key sequence, so
the synthesizer builds the same predicate for a given snapshot on every run.
(`rbac.GetKeys` is not under src/; it is modelled as returning the keys in
sorted order, per the spec's determinism requirement.) -/
theorem consolidate_keys_deterministic (l1 l2 : List (String × List Resource))
    (hperm : l1.Perm l2) :
    (consolidateNsResources l1).2 = (consolidateNsResources l2).2 := by
  have hiff : ∀ k, k ∈ (groupMapAux l1 []).map Prod.fst ↔
      k ∈ (groupMapAux l2 []).map Prod.fst := by
    intro k
    rw [mem_keys_groupMap, mem_keys_groupMap]
    exact ⟨fun ⟨ns, h⟩ => ⟨ns, hperm.mem_iff.mp h⟩,
           fun ⟨ns, h⟩ => ⟨ns, hperm.mem_iff.mpr h⟩⟩
  have nd1 : ((groupMapAux l1 []).map Prod.fst).Nodup :=
    nodup_keys_groupMapAux l1 [] (by simp)
  have nd2 : ((groupMapAux l2 []).map Prod.fst).Nodup :=
    nodup_keys_groupMapAux l2 [] (by simp)
  have hp : ((groupMapAux l1 []).map Prod.fst).Perm ((groupMapAux l2 []).map Prod.fst) :=
    (List.perm_ext_iff_of_nodup nd1 nd2).mpr hiff
  simp only [consolidateNsResources, getKeysR]
  exact List.eq_of_perm_of_sorted
    (((List.perm_insertionSort _ _).trans hp).trans (List.perm_insertionSort _ _).symm)
    (List.sorted_insertionSort _ _) (List.sorted_insertionSort _ _)

/-- Witness for C9: two orderings of the same two-namespace map produce the
same key sequence. -/
theorem consolidate_keys_deterministic_witness :
    ([("ns1", [⟨"g1", "k1"⟩]), ("ns2", [⟨"g2", "k2"⟩])] :
      List (String × List Resource)).Perm
      [("ns2", [⟨"g2", "k2"⟩]), ("ns1", [⟨"g1", "k1"⟩])] ∧
    (consolidateNsResources [("ns1", [⟨"g1", "k1"⟩]), ("ns2", [⟨"g2", "k2"⟩])]).2 =
      (consolidateNsResources [("ns2", [⟨"g2", "k2"⟩]), ("ns1", [⟨"g1", "k1"⟩])]).2 :=
  ⟨by decide, consolidate_keys_deterministic _ _ (by decide)⟩

lemma alookup_assocAppend [DecidableEq α] (m : List (α × List β)) (k k' : α)
    (vs : List β) :
    alookup (assocAppend m k vs) k' =
      if k = k' then some ((alookup m k).getD [] ++ vs) else alookup m k' := by
  induction m with
  | nil =>
    by_cases he : k = k'
    · simp [assocAppend, alookup, he]
    · simp [assocAppend, alookup, he]
  | cons p rest ih =>
    obtain ⟨k0, vs0⟩ := p
    by_cases h0 : k0 = k
    · subst h0
      have e1 : assocAppend ((k0, vs0) :: rest) k0 vs = (k0, vs0 ++ vs) :: rest := by
        simp [assocAppend]
      rw [e1]
      by_cases hk : k0 = k'
      · subst hk
        simp [alookup]
      · simp [alookup, hk]
    · have e1 : assocAppend ((k0, vs0) :: rest) k vs =
          (k0, vs0) :: assocAppend rest k vs := by
        simp [assocAppend, h0]
      rw [e1]
      by_cases hk : k0 = k'
      · subst hk
        rw [if_neg (fun he : k = k0 => h0 he.symm)]
        simp [alookup]
      · simp only [alookup, if_neg hk]
        rw [ih]
        by_cases he : k = k'
        · simp [he, alookup, h0, hk]
        · simp [he]

lemma mem_group_lookup_aux (l : List (String × List Resource)) :
    ∀ (m : List (List Resource × List String)) (k : List Resource) (ns : String),
      (ns ∈ (alookup (groupMapAux l m) k).getD [] ↔
        ns ∈ (alookup m k).getD [] ∨ (ns, k) ∈ l) := by
  induction l with
  | nil => intro m k ns; simp [groupMapAux]
  | cons p rest ih =>
    obtain ⟨ns0, res0⟩ := p
    intro m k ns
    simp only [groupMapAux]
    rw [ih, alookup_assocAppend]
    by_cases hk : res0 = k
    · subst hk
      rw [if_pos rfl]
      simp only [Option.getD_some, List.mem_append, List.mem_cons, List.not_mem_nil,
        or_false, Prod.mk.injEq]
      tauto
    · rw [if_neg hk]
      have hne : ¬(k = res0) := fun he => hk he.symm
      simp only [List.mem_cons, Prod.mk.injEq]
      tauto

lemma mem_group_lookup (l : List (String × List Resource)) (k : List Resource)
    (ns : String) :
    ns ∈ (alookup (groupMapAux l []) k).getD [] ↔ (ns, k) ∈ l := by
  rw [mem_group_lookup_aux l [] k ns]
  simp [alookup]

lemma alookup_eq_some_of_mem [DecidableEq α] (l : List (α × β))
    (hnd : (l.map Prod.fst).Nodup) (a : α) (b : β) (h : (a, b) ∈ l) :
    alookup l a = some b := by
  induction l with
  | nil => simp at h
  | cons p rest ih =>
    obtain ⟨a0, b0⟩ := p
    simp only [List.map_cons, List.nodup_cons] at hnd
    rcases List.mem_cons.mp h with heq | hr
    · have h1 : a = a0 := congrArg Prod.fst heq
      have h2 : b = b0 := congrArg Prod.snd heq
      subst h1; subst h2
      simp [alookup]
    · have hne : a0 ≠ a := by
        intro hcontra
        subst hcontra
        exact hnd.1 (by simpa using List.mem_map_of_mem Prod.fst hr)
      simp only [alookup, if_neg hne]
      exact ih hnd.2 hr

lemma mem_of_alookup_eq_some [DecidableEq α] (l : List (α × β)) (a : α) (b : β)
    (h : alookup l a = some b) : (a, b) ∈ l := by
  induction l with
  | nil => simp [alookup] at h
  | cons p rest ih =>
    obtain ⟨a0, b0⟩ := p
    simp only [alookup] at h
    by_cases h0 : a0 = a
    · subst h0
      rw [if_pos rfl] at h
      obtain rfl : b0 = b := by simpa using h
      exact List.mem_cons_self _ _
    · rw [if_neg h0] at h
      exact List.mem_cons_of_mem _ (ih h)

lemma alookup_isSome_of_mem_keys [DecidableEq α] (l : List (α × β)) (a : α)
    (h : a ∈ l.map Prod.fst) : ∃ b, alookup l a = some b := by
  induction l with
  | nil => simp at h
  | cons p rest ih =>
    obtain ⟨a0, b0⟩ := p
    by_cases h0 : a0 = a
    · exact ⟨b0, by simp [alookup, if_pos h0]⟩
    · simp only [List.map_cons, List.mem_cons] at h
      rcases h with h | h
      · exact absurd h.symm h0
      · obtain ⟨b, hb⟩ := ih h
        exact ⟨b, by simp [alookup, if_neg h0, hb]⟩

lemma list_any_map (f : α → β) (p : β → Bool) (l : List α) :
    (l.map f).any p = l.any (fun a => p (f a)) := by
  induction l with
  | nil => rfl
  | cons x xs ih => simp [ih]

lemma evalExpr_gOr (r : Row) (xs : List Expr) :
    evalExpr r (gOr xs) = xs.any (fun e => !e.isEmptyList && evalExpr r e) := by
  show evalAny r (xs.filter (fun e => !e.isEmptyList)) = _
  rw [evalAny_eq, List.any_filter]

lemma gAnd_pair_isEmpty (a b : Expr) (ha : a.isEmptyList = false) :
    (gAnd [a, b]).isEmptyList = false := by
  unfold gAnd
  rw [List.filter_cons]
  simp only [ha, Bool.not_false, if_pos]
  rfl

lemma evalExpr_gAnd_pair (r : Row) (a b : Expr) (ha : a.isEmptyList = false) :
    evalExpr r (gAnd [a, b]) = (evalExpr r a && matchesRow r b) := by
  unfold gAnd matchesRow
  rw [List.filter_cons, List.filter_cons, List.filter_nil]
  cases hb : b.isEmptyList
  · simp only [ha, hb, Bool.not_false, if_pos]
    simp [evalExpr, evalAll]
  · simp only [ha, hb, Bool.not_false, Bool.not_true, if_pos]
    simp [evalExpr, evalAll]

/-- C3: consolidation transparency.  For a namespace-scoped permission map
(with distinct namespace keys, as in a Go map) whose consolidated groups were
computed by `consolidateNsResources`, the consolidated predicate built by
`matchNamespacedResources` matches exactly the same rows — hence the same
(namespace, resource) pairs — as the unconsolidated per-namespace fallback
predicate over the same map. -/
theorem consolidation_transparent (ud : UserData) (ui : UserInfo)
    (hnodup : (ud.NsResources.map Prod.fst).Nodup)
    (hcons : ud.ConsolidatedNsResources = (consolidateNsResources ud.NsResources).1)
    (r : Row) :
    evalExpr r (matchNamespacedResources ud ui) =
      evalExpr r (matchNamespacedResourcesNoConsolidation ud ui) := by
  have hconsm : ud.ConsolidatedNsResources = groupMapAux ud.NsResources [] := hcons
  unfold matchNamespacedResources matchNamespacedResourcesNoConsolidation
  dsimp only
  by_cases h1 : ud.NsResources.length < 1
  · rw [if_pos h1, if_pos h1]
  · rw [if_neg h1, if_neg h1]
    by_cases h2 : ud.NsResources.length = 1 ∧ (getKeys ud.NsResources).headD "" = "*"
    · rw [if_pos h2, if_pos h2]
    · rw [if_neg h2, if_neg h2]
      rw [hconsm, Bool.eq_iff_iff, evalExpr_gOr, evalExpr_gOr,
        list_any_map, list_any_map]
      have hL : ∀ k : List Resource,
          ((!(gAnd [Expr.namespaceIn ((alookup (groupMapAux ud.NsResources []) k).getD []),
              matchApigroupKind k]).isEmptyList &&
            evalExpr r (gAnd [Expr.namespaceIn
              ((alookup (groupMapAux ud.NsResources []) k).getD []),
              matchApigroupKind k])) = true) ↔
          ((∃ ns ∈ (alookup (groupMapAux ud.NsResources []) k).getD [],
              r.nsVal = some ns) ∧
            matchesRow r (matchApigroupKind k) = true) := by
        intro k
        rw [gAnd_pair_isEmpty
            (Expr.namespaceIn ((alookup (groupMapAux ud.NsResources []) k).getD []))
            (matchApigroupKind k) rfl,
          evalExpr_gAnd_pair r
            (Expr.namespaceIn ((alookup (groupMapAux ud.NsResources []) k).getD []))
            (matchApigroupKind k) rfl]
        simp [evalExpr, List.any_eq_true]
      have hR : ∀ ns : String,
          ((!(gAnd [Expr.namespaceIs ns,
              matchApigroupKind ((alookup ud.NsResources ns).getD [])]).isEmptyList &&
            evalExpr r (gAnd [Expr.namespaceIs ns,
              matchApigroupKind ((alookup ud.NsResources ns).getD [])])) = true) ↔
          (r.nsVal = some ns ∧
            matchesRow r (matchApigroupKind ((alookup ud.NsResources ns).getD []))
              = true) := by
        intro ns
        rw [gAnd_pair_isEmpty (Expr.namespaceIs ns)
            (matchApigroupKind ((alookup ud.NsResources ns).getD [])) rfl,
          evalExpr_gAnd_pair r (Expr.namespaceIs ns)
            (matchApigroupKind ((alookup ud.NsResources ns).getD [])) rfl]
        simp [evalExpr]
      simp only [List.any_eq_true]
      simp only [hL, hR]
      have hmem1 : ∀ k : List Resource,
          k ∈ getKeysR (groupMapAux ud.NsResources []) ↔
          k ∈ (groupMapAux ud.NsResources []).map Prod.fst := by
        intro k
        exact (List.perm_insertionSort _ _).mem_iff
      have hmem2 : ∀ ns : String,
          ns ∈ getKeys ud.NsResources ↔ ns ∈ ud.NsResources.map Prod.fst := by
        intro ns
        exact (List.perm_insertionSort _ _).mem_iff
      constructor
      · rintro ⟨k, hk, ⟨ns, hnsg, hrow⟩, hP⟩
        have hmemN : (ns, k) ∈ ud.NsResources :=
          (mem_group_lookup ud.NsResources k ns).mp hnsg
        have hlook : alookup ud.NsResources ns = some k :=
          alookup_eq_some_of_mem ud.NsResources hnodup ns k hmemN
        refine ⟨ns, (hmem2 ns).mpr (by simpa using List.mem_map_of_mem Prod.fst hmemN),
          hrow, ?_⟩
        rw [hlook]
        exact hP
      · rintro ⟨ns, hns, hrow, hP⟩
        obtain ⟨k, hlook⟩ := alookup_isSome_of_mem_keys ud.NsResources ns
          ((hmem2 ns).mp hns)
        have hmemN : (ns, k) ∈ ud.NsResources :=
          mem_of_alookup_eq_some ud.NsResources ns k hlook
        refine ⟨k, (hmem1 k).mpr ((mem_keys_groupMap ud.NsResources k).mpr ⟨ns, hmemN⟩),
          ⟨ns, (mem_group_lookup ud.NsResources k ns).mpr hmemN, hrow⟩, ?_⟩
        rw [hlook] at hP
        exact hP

/-- Witness for C3 on the spec's example map
`{ns1: [R(g1,k1)], ns2: [R(g1,k1)], ns3: [R(g2,k2)]}` and a row living in
`ns2` with apigroup `g1` and kind `k1`. -/
theorem consolidation_transparent_witness :
    (([("ns1", [⟨"g1", "k1"⟩]), ("ns2", [⟨"g1", "k1"⟩]), ("ns3", [⟨"g2", "k2"⟩])] :
        List (String × List Resource)).map Prod.fst).Nodup ∧
    evalExpr ⟨some "g1", some "k1", some "ns2", true⟩
        (matchNamespacedResources
          ⟨[], [("ns1", [⟨"g1", "k1"⟩]), ("ns2", [⟨"g1", "k1"⟩]), ("ns3", [⟨"g2", "k2"⟩])],
            (consolidateNsResources
              [("ns1", [⟨"g1", "k1"⟩]), ("ns2", [⟨"g1", "k1"⟩]),
                ("ns3", [⟨"g2", "k2"⟩])]).1⟩
          ⟨"user1", "uid1"⟩) =
      evalExpr ⟨some "g1", some "k1", some "ns2", true⟩
        (matchNamespacedResourcesNoConsolidation
          ⟨[], [("ns1", [⟨"g1", "k1"⟩]), ("ns2", [⟨"g1", "k1"⟩]), ("ns3", [⟨"g2", "k2"⟩])],
            (consolidateNsResources
              [("ns1", [⟨"g1", "k1"⟩]), ("ns2", [⟨"g1", "k1"⟩]),
                ("ns3", [⟨"g2", "k2"⟩])]).1⟩
          ⟨"user1", "uid1"⟩) :=
  ⟨by decide,
   consolidation_transparent
     ⟨[], [("ns1", [⟨"g1", "k1"⟩]), ("ns2", [⟨"g1", "k1"⟩]), ("ns3", [⟨"g2", "k2"⟩])],
       (consolidateNsResources
         [("ns1", [⟨"g1", "k1"⟩]), ("ns2", [⟨"g1", "k1"⟩]),
           ("ns3", [⟨"g2", "k2"⟩])]).1⟩
     ⟨"user1", "uid1"⟩ (by decide) rfl ⟨some "g1", some "k1", some "ns2", true⟩⟩
